import Mathlib

/-!
Verification of the `rex` pattern-matching pipeline (tokenizer, parser,
matcher) against its natural-language specification.

The embedding below is a shallow translation of the Rust sources:
  * `src/lex.rs`      → `TokenKind`, `Token`, `tokenizeF` / `tokenizeStr`
  * `src/expr.rs`     → `Expr`
  * `src/parser.rs`   → `ParseError`, `parsePrimary`, `parseExprLoop`,
                        `parseToks`, `parseStr`
  * `src/eval.rs`     → `expectS`, `evalE`, `matchesE`

Conventions of the embedding:
  * Strings are `List Char`; the inputs of interest are ASCII, where the
    byte indices produced by Rust's `char_indices` coincide with character
    indices, so token positions are modelled as character indices.
  * A Rust panic (out-of-range string slice in `Eval::expect`, and the
    `todo!()` arm of `Eval::eval`) is modelled as `none`; a normal return
    is `some`.
  * The recursive parser and the tokenizer loop are given a fuel
    parameter so that every definition is structurally recursive and
    computable by the kernel; `none` also stands for fuel exhaustion.
    The top-level wrappers pass enough fuel for every terminating run
    (one unit per consumed character / token), so `some r` means the
    Rust code really returns `r`.
-/

namespace Rex

/-- `TokenKind` from src/lex.rs: `Alphabet` carries the text slice of a
maximal run of lowercase letters / digits. -/
inductive TokenKind where
  | Alphabet : List Char → TokenKind
  | Plus : TokenKind
  | Star : TokenKind
  | Dot : TokenKind
  | LeftParen : TokenKind
  | RightParen : TokenKind
deriving DecidableEq, Repr

/-- `Token` from src/lex.rs: a kind plus a `(line, column)` position; the
lexer always emits line `0` and the character index of the token's first
character. -/
structure Token where
  kind : TokenKind
  pos : Nat × Nat
deriving DecidableEq, Repr

instance {ε α : Type} [DecidableEq ε] [DecidableEq α] : DecidableEq (Except ε α) := fun a b =>
  match a, b with
  | .ok x, .ok y =>
    if h : x = y then .isTrue (congrArg Except.ok h)
    else .isFalse fun hc => h (Except.ok.inj hc)
  | .error x, .error y =>
    if h : x = y then .isTrue (congrArg Except.error h)
    else .isFalse fun hc => h (Except.error.inj hc)
  | .ok _, .error _ => .isFalse fun hc => Except.noConfusion hc
  | .error _, .ok _ => .isFalse fun hc => Except.noConfusion hc

/-- The character class of the `'a'..='z' | '0'..='9'` match arms in
`tokenize` (src/lex.rs lines 69 and 74). -/
def isAlnum (c : Char) : Bool :=
  ('a' ≤ c && c ≤ 'z') || ('0' ≤ c && c ≤ '9')

/-- `tokenize` from src/lex.rs lines 47-93, on the remaining characters
`s`, where `i` is the index of the first character of `s` in the whole
input.  The outer `Nat` is fuel (`none` = fuel ran out; the wrapper
`tokenizeStr` always supplies enough).  The inner `Except` mirrors the
Rust `Result<Vec<Token>, String>`:
  * a space starts the whitespace arm, which additionally skips every
    following character satisfying `is_whitespace`;
  * `+ * ( ) .` become single-character tokens;
  * a lowercase letter or digit starts a maximal alphanumeric run,
    emitted as one `Alphabet` token positioned at its first character;
  * any other character is the error
    `"Encountered unknown character: {ch}"`. -/
def tokenizeF : Nat → List Char → Nat → Option (Except String (List Token))
  | _, [], _ => some (.ok [])
  | 0, _ :: _, _ => none
  | fuel + 1, ch :: cs, i =>
    if ch = ' ' then
      tokenizeF fuel (cs.dropWhile Char.isWhitespace)
        (i + 1 + (cs.takeWhile Char.isWhitespace).length)
    else if ch = '+' then
      (tokenizeF fuel cs (i + 1)).map (Except.map (fun ts => ⟨.Plus, (0, i)⟩ :: ts))
    else if ch = '*' then
      (tokenizeF fuel cs (i + 1)).map (Except.map (fun ts => ⟨.Star, (0, i)⟩ :: ts))
    else if ch = '(' then
      (tokenizeF fuel cs (i + 1)).map (Except.map (fun ts => ⟨.LeftParen, (0, i)⟩ :: ts))
    else if ch = ')' then
      (tokenizeF fuel cs (i + 1)).map (Except.map (fun ts => ⟨.RightParen, (0, i)⟩ :: ts))
    else if ch = '.' then
      (tokenizeF fuel cs (i + 1)).map (Except.map (fun ts => ⟨.Dot, (0, i)⟩ :: ts))
    else if isAlnum ch then
      (tokenizeF fuel (cs.dropWhile isAlnum) (i + 1 + (cs.takeWhile isAlnum).length)).map
        (Except.map (fun ts => ⟨.Alphabet (ch :: cs.takeWhile isAlnum), (0, i)⟩ :: ts))
    else
      some (.error ("Encountered unknown character: ".push ch))

/-- Top-level `tokenize(s)`: scan the whole input from index 0.  One unit
of fuel per character is always enough, since every step of the loop
consumes at least one character. -/
def tokenizeStr (s : List Char) : Option (Except String (List Token)) :=
  tokenizeF s.length s 0

/-- `Expr` from src/expr.rs: the pattern AST. -/
inductive Expr where
  | Alphabet : List Char → Expr
  | Star : Expr → Expr
  | Plus : Expr → Expr → Expr
  | Dot : Expr → Expr → Expr
deriving DecidableEq, Repr

/-- `ParseError` from src/parser.rs lines 5-10.  Its only variants are
`Lexer`, `ExpectedExpression` and `ExpectedClosingParen`. -/
inductive ParseError where
  | Lexer : String → ParseError
  | ExpectedExpression : ParseError
  | ExpectedClosingParen : ParseError
deriving DecidableEq, Repr

mutual

/-- `Parser::parse_primary` (src/parser.rs lines 79-102), over the token
list `tks` with cursor `c` (the parser's `self.curr`); `next()` is
`tks[c]?` plus a cursor increment.  On success returns the parsed
expression and the new cursor.  The first `Nat` is fuel (`none` = fuel
ran out). -/
def parsePrimary : Nat → List Token → Nat → Option (Except ParseError (Expr × Nat))
  | 0, _, _ => none
  | fuel + 1, tks, c =>
    match tks[c]? with
    | none => some (.error .ExpectedExpression)
    | some tok =>
      match tok.kind with
      | .Alphabet a => some (.ok (.Alphabet a, c + 1))
      | .LeftParen =>
        match parseToks fuel tks (c + 1) with
        | none => none
        | some (.error e) => some (.error e)
        | some (.ok (inner, c2)) =>
          match tks[c2]? with
          | none => some (.error .ExpectedClosingParen)
          | some tok2 =>
            if tok2.kind = .RightParen then some (.ok (inner, c2 + 1))
            else some (.error .ExpectedClosingParen)
      | _ => some (.error .ExpectedExpression)

/-- The `while let Some(tok) = self.peek()` loop of `Parser::parse_expr`
(src/parser.rs lines 105-120), carrying the accumulated left-hand side:
`Star` wraps `lhs` and continues; `Plus` / `Dot` consume the operator,
recursively parse a full sub-expression for the right-hand side
(`parse_plus_expr` / `parse_dot_expr`, lines 60-75) and continue; a
`RightParen` breaks out of the loop; any other token is
`Err(ExpectedExpression)`. -/
def parseExprLoop : Nat → List Token → Expr → Nat → Option (Except ParseError (Expr × Nat))
  | 0, _, _, _ => none
  | fuel + 1, tks, lhs, c =>
    match tks[c]? with
    | none => some (.ok (lhs, c))
    | some tok =>
      match tok.kind with
      | .Star => parseExprLoop fuel tks (.Star lhs) (c + 1)
      | .Plus =>
        match parseToks fuel tks (c + 1) with
        | none => none
        | some (.error e) => some (.error e)
        | some (.ok (rhs, c2)) => parseExprLoop fuel tks (.Plus lhs rhs) c2
      | .Dot =>
        match parseToks fuel tks (c + 1) with
        | none => none
        | some (.error e) => some (.error e)
        | some (.ok (rhs, c2)) => parseExprLoop fuel tks (.Dot lhs rhs) c2
      | .RightParen => some (.ok (lhs, c))
      | _ => some (.error .ExpectedExpression)

/-- `Parser::parse` (src/parser.rs lines 122-125): one primary, then the
postfix/infix loop. -/
def parseToks : Nat → List Token → Nat → Option (Except ParseError (Expr × Nat))
  | 0, _, _ => none
  | fuel + 1, tks, c =>
    match parsePrimary fuel tks c with
    | none => none
    | some (.error e) => some (.error e)
    | some (.ok (lhs, c2)) => parseExprLoop fuel tks lhs c2

end

/-- `Parser::from(text)` followed by `Parser::parse()`: tokenize, wrap a
lexer failure as `ParseError::Lexer`, then parse from cursor 0.  The
result pairs the expression with the final cursor, so leftover tokens
are observable.  `3 * tks.length + 3` units of fuel are enough for every
terminating parse: every fuel decrement is an entry into `parseToks`,
`parsePrimary` or `parseExprLoop`, the cursor never moves backwards, and
between two decrements at the same cursor position a token is consumed
after at most three steps (`parseToks` → `parsePrimary` → consume, or a
`parseExprLoop` entry directly after a primary). -/
def parseStr (s : List Char) : Option (Except ParseError (Expr × Nat)) :=
  match tokenizeStr s with
  | none => none
  | some (.error e) => some (.error (.Lexer e))
  | some (.ok tks) => parseToks (3 * tks.length + 3) tks 0

/-- `Eval::expect` (src/eval.rs lines 27-34) over target `t` and cursor
`c`: Rust slices `&self.target[self.curr..(self.curr + s.len())]`, which
panics (`none`) when the upper bound exceeds the target's length;
otherwise it compares the slice with `s`, returning `false` without
moving the cursor on mismatch, and `true` after advancing the cursor by
`s.len()` on equality. -/
def expectS (t : List Char) (c : Nat) (s : List Char) : Option (Bool × Nat) :=
  if t.length < c + s.length then none
  else if (t.drop c).take s.length ≠ s then some (false, c)
  else some (true, c + s.length)

/-- `Eval::eval` (src/eval.rs lines 56-65) together with the helpers it
dispatches to: `eval_alphabet` calls `expect`; `eval_star` (lines 40-42)
evaluates its inner expression exactly once; `eval_plus` (lines 44-50)
tries the left branch and, if it returns `false`, evaluates the right
branch from the state the left branch left behind; the `Dot` variant
falls into the `_ => todo!()` arm, a runtime abort (`none`).  Returns the
boolean outcome and the new cursor. -/
def evalE : Expr → List Char → Nat → Option (Bool × Nat)
  | .Alphabet a, t, c => expectS t c a
  | .Star e, t, c => evalE e t c
  | .Plus l r, t, c =>
    match evalE l t c with
    | none => none
    | some (true, c2) => some (true, c2)
    | some (false, c2) => evalE r t c2
  | .Dot _ _, _, _ => none

/-- The `matches(expr, subject)` boundary of the spec, as realized by the
code and its tests (src/eval.rs lines 72-97): build `Eval::new(subject)`
(cursor 0) and run `eval`, keeping only the boolean. -/
def matchesE (e : Expr) (subject : List Char) : Option Bool :=
  (evalE e subject 0).map Prod.fst

/-- `true` iff the expression contains no `Dot` node, i.e. is built only
from `Alphabet`, `Star` and `Plus`. -/
def noDot : Expr → Bool
  | .Alphabet _ => true
  | .Star e => noDot e
  | .Plus l r => noDot l && noDot r
  | .Dot _ _ => false

/-- `true` for the token kinds the `parse_expr` loop has no production
for (its `_ =>` arm): `Alphabet` and `LeftParen`. -/
def isLoopUnhandled : TokenKind → Bool
  | .Alphabet _ => true
  | .LeftParen => true
  | _ => false

theorem takeWhile_of_all {α : Type} {p : α → Bool} :
    ∀ l : List α, (∀ c ∈ l, p c = true) → l.takeWhile p = l := by
  intro l
  induction l with
  | nil => intro _; rfl
  | cons c cs ih =>
    intro h
    have hc : p c = true := h c (List.mem_cons_self c cs)
    simp only [List.takeWhile, hc, List.cons.injEq, true_and]
    exact ih fun x hx => h x (List.mem_cons_of_mem c hx)

theorem dropWhile_of_all {α : Type} {p : α → Bool} :
    ∀ l : List α, (∀ c ∈ l, p c = true) → l.dropWhile p = [] := by
  intro l
  induction l with
  | nil => intro _; rfl
  | cons c cs ih =>
    intro h
    have hc : p c = true := h c (List.mem_cons_self c cs)
    simp only [List.dropWhile, hc]
    exact ih fun x hx => h x (List.mem_cons_of_mem c hx)

theorem takeWhile_append_of_all {α : Type} {p : α → Bool} :
    ∀ ws cs : List α, (∀ c ∈ ws, p c = true) →
      (∀ c ∈ cs.take 1, p c = false) → (ws ++ cs).takeWhile p = ws := by
  intro ws cs hws hcs
  induction ws with
  | nil =>
    cases cs with
    | nil => rfl
    | cons c cs2 =>
      have hc : p c = false := hcs c (by simp)
      simp [List.takeWhile, hc]
  | cons w ws2 ih =>
    have hw : p w = true := hws w (List.mem_cons_self w ws2)
    simp only [List.cons_append, List.takeWhile, hw, List.append_eq, List.cons.injEq, true_and]
    exact ih fun x hx => hws x (List.mem_cons_of_mem w hx)

theorem dropWhile_append_of_all {α : Type} {p : α → Bool} :
    ∀ ws cs : List α, (∀ c ∈ ws, p c = true) →
      (∀ c ∈ cs.take 1, p c = false) → (ws ++ cs).dropWhile p = cs := by
  intro ws cs hws hcs
  induction ws with
  | nil =>
    cases cs with
    | nil => rfl
    | cons c cs2 =>
      have hc : p c = false := hcs c (by simp)
      simp [List.dropWhile, hc]
  | cons w ws2 ih =>
    have hw : p w = true := hws w (List.mem_cons_self w ws2)
    simp only [List.cons_append, List.dropWhile, hw, List.append_eq]
    exact ih fun x hx => hws x (List.mem_cons_of_mem w hx)

theorem isAlnum_ne_special {c : Char} (hc : isAlnum c = true) :
    c ≠ ' ' ∧ c ≠ '+' ∧ c ≠ '*' ∧ c ≠ '(' ∧ c ≠ ')' ∧ c ≠ '.' := by
  refine ⟨?_, ?_, ?_, ?_, ?_, ?_⟩ <;> (rintro rfl; revert hc; decide)

/-- One step of the tokenizer on an alphanumeric head: the maximal run is
collected into a single `Alphabet` token positioned at the run's first
character, and scanning resumes after the run. -/
theorem tokenizeF_alnum_step (fuel : Nat) (c : Char) (cs : List Char) (i : Nat)
    (hc : isAlnum c = true) :
    tokenizeF (fuel + 1) (c :: cs) i =
      (tokenizeF fuel (cs.dropWhile isAlnum) (i + 1 + (cs.takeWhile isAlnum).length)).map
        (Except.map (fun ts => ⟨.Alphabet (c :: cs.takeWhile isAlnum), (0, i)⟩ :: ts)) := by
  obtain ⟨h1, h2, h3, h4, h5, h6⟩ := isAlnum_ne_special hc
  simp [tokenizeF, h1, h2, h3, h4, h5, h6, hc]

theorem tokenizeF_nil (fuel i : Nat) : tokenizeF fuel [] i = some (.ok []) := by
  cases fuel <;> rfl

/-- Tokenizing a nonempty all-alphanumeric input yields exactly one
`Alphabet` token carrying the whole input. -/
theorem tokenizeF_all_alnum (c : Char) (cs : List Char) (i : Nat)
    (h : ∀ x ∈ c :: cs, isAlnum x = true) :
    tokenizeF (cs.length + 1) (c :: cs) i =
      some (.ok [⟨.Alphabet (c :: cs), (0, i)⟩]) := by
  have hcs : ∀ x ∈ cs, isAlnum x = true := fun x hx => h x (List.mem_cons_of_mem c hx)
  rw [tokenizeF_alnum_step cs.length c cs i (h c (List.mem_cons_self c cs))]
  rw [takeWhile_of_all cs hcs, dropWhile_of_all cs hcs, tokenizeF_nil]
  rfl

/-- C9 — Failure atomicity of the matcher: for every expression built
only from `Alphabet`, `Plus` and `Star` nodes, whenever an evaluation of
a sub-expression returns `false` without aborting, the subject cursor is
exactly where it was before the evaluation began. -/
theorem evalE_false_preserves_cursor (e : Expr) (t : List Char) (c c2 : Nat)
    (hnd : noDot e = true) (h : evalE e t c = some (false, c2)) : c2 = c := by
  induction e generalizing c c2 with
  | Alphabet a =>
    simp only [evalE, expectS] at h
    split at h
    · exact Option.noConfusion h
    · split at h
      · simp only [Option.some.injEq, Prod.mk.injEq] at h
        exact h.2.symm
      · simp at h
  | Star e ih => exact ih c c2 hnd h
  | Plus l r ihl ihr =>
    simp only [noDot, Bool.and_eq_true] at hnd
    simp only [evalE] at h
    cases hl : evalE l t c with
    | none => rw [hl] at h; exact Option.noConfusion h
    | some br =>
      obtain ⟨b, c1⟩ := br
      rw [hl] at h
      cases b with
      | true => simp at h
      | false =>
        simp only at h
        have h1 : c1 = c := ihl c c1 hnd.1 hl
        have h2 : c2 = c1 := ihr c1 c2 hnd.2 h
        omega
  | Dot l r ihl ihr => simp [noDot] at hnd

/-- Witness for C9 at a concrete input: `Plus(Alphabet "a", Alphabet
"b")` fails on subject `"c"` and leaves the cursor at 0. -/
theorem evalE_false_preserves_cursor_witness :
    noDot (Expr.Plus (Expr.Alphabet ['a']) (Expr.Alphabet ['b'])) = true ∧
    evalE (Expr.Plus (Expr.Alphabet ['a']) (Expr.Alphabet ['b'])) ['c'] 0 = some (false, 0) ∧
    (0 : Nat) = 0 :=
  ⟨by decide, by decide,
    evalE_false_preserves_cursor (Expr.Plus (Expr.Alphabet ['a']) (Expr.Alphabet ['b']))
      ['c'] 0 0 (by decide) (by decide)⟩

/-- C5 counterexample — parsing `"a(b)"` does not fail with a dedicated
`UnexpectedToken` error: the result is `ParseError::ExpectedExpression`,
and `ExpectedExpression` is a different error from the one the spec
reserves for the postfix/infix loop (the embedded `ParseError`, copied
from src/parser.rs lines 5-10, has no `UnexpectedToken` variant at
all). -/
theorem parse_postfix_unexpected_cx :
    parseStr "a(b)".toList = some (.error ParseError.ExpectedExpression) ∧
    ParseError.ExpectedExpression ≠ ParseError.ExpectedClosingParen :=
  ⟨by decide, by decide⟩

/-- One step of the postfix/infix loop on a peeked token its match has
no production for (an `Alphabet` or `LeftParen` token): the `_` arm
returns `Err(ExpectedExpression)`. -/
theorem parseExprLoop_unhandled_step (fuel : Nat) (tks : List Token) (lhs : Expr)
    (c : Nat) (tok : Token) (hpeek : tks[c]? = some tok)
    (hkind : isLoopUnhandled tok.kind = true) :
    parseExprLoop (fuel + 1) tks lhs c = some (.error ParseError.ExpectedExpression) := by
  cases tok with
  | mk kind pos => cases kind <;> simp_all [parseExprLoop, isLoopUnhandled]

/-- C5 (amended) — when a token for which the grammar has no production
(an `Alphabet` or `LeftParen` token) appears in the postfix/infix loop
after a complete primary, `Parser::parse` fails with
`ParseError::ExpectedExpression`: the loop's defensive `_` arm reuses
`ExpectedExpression`, and the parser's error type has no
`UnexpectedToken` variant. -/
theorem parse_unhandled_token_after_primary (fuel : Nat) (tks : List Token)
    (c c2 : Nat) (lhs : Expr) (tok : Token)
    (hprim : parsePrimary fuel tks c = some (.ok (lhs, c2)))
    (hpeek : tks[c2]? = some tok)
    (hkind : isLoopUnhandled tok.kind = true) :
    parseToks (fuel + 1) tks c = some (.error ParseError.ExpectedExpression) := by
  cases fuel with
  | zero => exact Option.noConfusion hprim
  | succ f =>
    simp only [parseToks, hprim]
    exact parseExprLoop_unhandled_step f tks lhs c2 tok hpeek hkind

/-- Witness for C5 at the tokens of `"a(b)"`: the primary consumes
`Alphabet "a"`, the loop peeks the `LeftParen` at index 1, and the parse
fails with `ExpectedExpression`. -/
theorem parse_unhandled_token_after_primary_witness :
    parseToks 2
      [⟨.Alphabet ['a'], (0, 0)⟩, ⟨.LeftParen, (0, 1)⟩,
       ⟨.Alphabet ['b'], (0, 2)⟩, ⟨.RightParen, (0, 3)⟩] 0 =
      some (.error ParseError.ExpectedExpression) :=
  parse_unhandled_token_after_primary 1
    [⟨.Alphabet ['a'], (0, 0)⟩, ⟨.LeftParen, (0, 1)⟩,
     ⟨.Alphabet ['b'], (0, 2)⟩, ⟨.RightParen, (0, 3)⟩]
    0 1 (Expr.Alphabet ['a']) ⟨.LeftParen, (0, 1)⟩ (by decide) (by decide) (by decide)

/-- C8 counterexample — a tab character at the start of the pattern is
not skipped silently: `tokenize` reports it as an unknown character,
because only a literal space `' '` enters the whitespace-skipping arm. -/
theorem tokenize_tab_errors_cx :
    tokenizeStr ['\t', 'a'] =
      some (.error ("Encountered unknown character: ".push '\t')) := by decide

/-- C8 (amended) — a space character is skipped silently and contributes
no token; the whitespace run immediately following a space (tabs,
newlines, further spaces) is also skipped silently, scanning resuming at
the first non-whitespace character with the position advanced past the
run.  (Other whitespace characters not preceded by a space instead hit
the unknown-character error, per the counterexample.) -/
theorem tokenize_space_skips_whitespace_run (fuel : Nat) (ws cs : List Char) (i : Nat)
    (hws : ∀ x ∈ ws, Char.isWhitespace x = true)
    (hcs : ∀ x ∈ cs.take 1, Char.isWhitespace x = false) :
    tokenizeF (fuel + 1) (' ' :: (ws ++ cs)) i = tokenizeF fuel cs (i + 1 + ws.length) := by
  simp only [tokenizeF, if_pos]
  rw [takeWhile_append_of_all ws cs hws hcs, dropWhile_append_of_all ws cs hws hcs]

/-- Witness for C8: `" \ta"` — the space and the tab after it contribute
no token and no error, scanning resumes at `'a'` with position 2. -/
theorem tokenize_space_skips_whitespace_run_witness :
    tokenizeF 2 [' ', '\t', 'a'] 0 = tokenizeF 1 ['a'] 2 :=
  tokenize_space_skips_whitespace_run 1 ['\t'] ['a'] 0 (by decide) (by decide)

/-- Pipeline instance of the unclosed-group error: `'('` followed by any
nonempty alphanumeric run (so the group's body parses as one `Alphabet`
and the token stream ends before any `)`) makes the full
tokenize-then-parse pipeline fail with `ExpectedClosingParen`. -/
theorem parseStr_lparen_alnum_run_unclosed (s : List Char) (hne : s ≠ [])
    (h : ∀ x ∈ s, isAlnum x = true) :
    parseStr ('(' :: s) = some (.error ParseError.ExpectedClosingParen) := by
  obtain ⟨c, cs, rfl⟩ : ∃ c cs, s = c :: cs := by
    cases s with
    | nil => exact absurd rfl hne
    | cons c cs => exact ⟨c, cs, rfl⟩
  have htok : tokenizeStr ('(' :: c :: cs) =
      some (.ok [⟨.LeftParen, (0, 0)⟩, ⟨.Alphabet (c :: cs), (0, 1)⟩]) := by
    show tokenizeF ('(' :: c :: cs).length ('(' :: c :: cs) 0 = _
    have hlen : ('(' :: c :: cs).length = (cs.length + 1) + 1 := by simp
    rw [hlen]
    have hstep : tokenizeF ((cs.length + 1) + 1) ('(' :: c :: cs) 0 =
        (tokenizeF (cs.length + 1) (c :: cs) 1).map
          (Except.map (fun ts => ⟨.LeftParen, (0, 0)⟩ :: ts)) := by
      simp [tokenizeF]
    rw [hstep, tokenizeF_all_alnum c cs 1 h]
    rfl
  simp only [parseStr, htok]
  rfl

/-- C6 counterexample — the claim fails in both directions: the
one-character pattern `"("` is an unmatched `(`, yet `parse` fails with
`ParseError::ExpectedExpression` (the group's body is parsed before the
`)` check and already fails on the empty token rest), not
`ExpectedClosingParen`; and the pattern `"a)("` contains an unmatched
`(` yet does not fail at all — the stray `)` stops the top-level parse,
which returns `Ok(Alphabet "a")` with the `(` never reached. -/
theorem parse_unmatched_lparen_cx :
    parseStr "(".toList = some (.error ParseError.ExpectedExpression) ∧
    ParseError.ExpectedExpression ≠ ParseError.ExpectedClosingParen ∧
    parseStr "a)(".toList = some (.ok (.Alphabet ['a'], 1)) :=
  ⟨by decide, by decide, by decide⟩

/-- C6 (amended) — a pattern with an unmatched `(` need not fail at all
(a stray `)` can stop the top-level parse before the `(` is reached, as
in `"a)("`), and the bare pattern `"("` fails with `ExpectedExpression`;
the error `ExpectedClosingParen` is raised when a parenthesized group's
inner expression parses successfully and the very next token is either
absent or not a `)` — for any surrounding tokens and any position, e.g.
`"(a"`, `"(a*"`, `"(a+b"`. -/
theorem parse_unclosed_group_error (fuel : Nat) (tks : List Token)
    (c c2 : Nat) (inner : Expr) (pos : Nat × Nat)
    (hlp : tks[c]? = some ⟨.LeftParen, pos⟩)
    (hinner : parseToks fuel tks (c + 1) = some (.ok (inner, c2)))
    (hclose : (tks[c2]?).map Token.kind ≠ some TokenKind.RightParen) :
    parseToks (fuel + 2) tks c = some (.error ParseError.ExpectedClosingParen) := by
  have hprim : parsePrimary (fuel + 1) tks c =
      some (.error ParseError.ExpectedClosingParen) := by
    simp only [parsePrimary, hlp, hinner]
    cases htk : tks[c2]? with
    | none => rfl
    | some tok2 =>
      have hk : ¬tok2.kind = .RightParen := by
        intro he
        exact hclose (by rw [htk]; simp [he])
      simp [hk]
  simp only [parseToks, hprim]

/-- Witness for C6 at the tokens of `"(a"`: the group body parses as
`Alphabet "a"` ending at token index 2, no `)` follows, and the parse
fails with `ExpectedClosingParen`. -/
theorem parse_unclosed_group_error_witness :
    parseToks 5 [⟨.LeftParen, (0, 0)⟩, ⟨.Alphabet ['a'], (0, 1)⟩] 0 =
      some (.error ParseError.ExpectedClosingParen) :=
  parse_unclosed_group_error 3 [⟨.LeftParen, (0, 0)⟩, ⟨.Alphabet ['a'], (0, 1)⟩]
    0 2 (Expr.Alphabet ['a']) (0, 0) (by decide) (by decide) (by decide)

/-- C7 — Right-associativity: `"69 + 23 + 79 + 59"` parses to the
right-nested `Plus` chain `Plus("69", Plus("23", Plus("79", "59")))`,
and `"a.b.c.d"` parses to the analogous right-nested `Dot` chain; both
parses consume all 7 tokens. -/
theorem parse_right_associative_chains :
    parseStr "69 + 23 + 79 + 59".toList =
      some (.ok (.Plus (.Alphabet "69".toList)
        (.Plus (.Alphabet "23".toList)
          (.Plus (.Alphabet "79".toList) (.Alphabet "59".toList))), 7)) ∧
    parseStr "a.b.c.d".toList =
      some (.ok (.Dot (.Alphabet ['a'])
        (.Dot (.Alphabet ['b']) (.Dot (.Alphabet ['c']) (.Alphabet ['d']))), 7)) :=
  ⟨by decide, by decide⟩

/-- C10 — Top-level parse accepts trailing input: on `"a)b"` the stray
`RightParen` (token index 1 of 3) stops the loop without error and
without being consumed, so `parse` returns `Ok(Alphabet "a")` with the
cursor still at 1, silently leaving the `)` and the following `b`
unconsumed. -/
theorem parse_stray_rparen_stops_silently :
    tokenizeStr "a)b".toList =
      some (.ok [⟨.Alphabet ['a'], (0, 0)⟩, ⟨.RightParen, (0, 1)⟩,
        ⟨.Alphabet ['b'], (0, 2)⟩]) ∧
    parseStr "a)b".toList = some (.ok (.Alphabet ['a'], 1)) :=
  ⟨by decide, by decide⟩

/-- C1 — the whole-string match contract does not hold in the code:
`parse("abc")` succeeds, `eval` on subject `"abcd"` returns `true` after
consuming only 3 of the 4 characters (a proper prefix), and the claim's
own example `matches(parse("abcd"), "abc")` does not return `false` but
aborts (`none`): `expect` slices `target[0..4]` of a 3-character string,
which panics. -/
theorem eval_accepts_proper_prefix :
    parseStr "abc".toList = some (.ok (.Alphabet "abc".toList, 1)) ∧
    evalE (.Alphabet "abc".toList) "abcd".toList 0 = some (true, 3) ∧
    ("abcd".toList).length = 4 ∧
    matchesE (.Alphabet "abc".toList) "abcd".toList = some true ∧
    matchesE (.Alphabet "abcd".toList) "abc".toList = none :=
  ⟨by decide, by decide, by decide, by decide, by decide⟩

/-- C2 — the matcher is not total: the `Dot` expression produced by
`parse("a.b")` hits the `_ => todo!()` arm of `Eval::eval` and aborts on
any subject, and even a `Dot`-free `Alphabet` node aborts via an
out-of-range slice in `expect` when the subject is shorter than the
literal. -/
theorem eval_aborts_on_dot_and_long_literal :
    parseStr "a.b".toList =
      some (.ok (.Dot (.Alphabet ['a']) (.Alphabet ['b']), 3)) ∧
    matchesE (.Dot (.Alphabet ['a']) (.Alphabet ['b'])) "ab".toList = none ∧
    matchesE (.Alphabet "ab".toList) ['a'] = none :=
  ⟨by decide, by decide, by decide⟩

/-- C3 — concatenation is unimplemented, not split-searching: on subject
`"ab"` the left operand `Alphabet "a"` matches the prefix (leaving the
cursor at 1) and the right operand `Alphabet "b"` matches the remainder
from there, so the claimed semantics would succeed; instead
`Dot(Alphabet "a", Alphabet "b")` aborts (`todo!()`). -/
theorem eval_dot_aborts_despite_valid_split :
    evalE (.Alphabet ['a']) "ab".toList 0 = some (true, 1) ∧
    evalE (.Alphabet ['b']) "ab".toList 1 = some (true, 2) ∧
    matchesE (.Dot (.Alphabet ['a']) (.Alphabet ['b'])) "ab".toList = none :=
  ⟨by decide, by decide, by decide⟩

/-- C4 — `Star` does not implement zero-or-more repetition:
`matches(parse("a*"), "aaaa")` does return `true`, but only because the
inner expression is evaluated exactly once (the cursor stops at 1 and no
end-of-input check exists); the zero-repetition case
`matches(parse("a*"), "")` aborts (`expect` slices `target[0..1]` of the
empty string) instead of returning `true`. -/
theorem eval_star_zero_reps_aborts :
    parseStr "a*".toList = some (.ok (.Star (.Alphabet ['a']), 2)) ∧
    matchesE (.Star (.Alphabet ['a'])) "aaaa".toList = some true ∧
    evalE (.Star (.Alphabet ['a'])) "aaaa".toList 0 = some (true, 1) ∧
    matchesE (.Star (.Alphabet ['a'])) [] = none :=
  ⟨by decide, by decide, by decide, by decide⟩

end Rex

